import Mathlib

/-!
Shallow embedding of `zipreader.go` from the go-shp repository.

The zip archive is modelled as a list of entries; each entry carries its
name and a flag saying whether opening its stream (`f.Open()`) succeeds.
Filesystem-level archive opening (`zip.OpenReader` / `zip.NewReader`) is
modelled by an `Option Archive` argument: `none` means the archive could
not be opened or indexed.  Handle lifecycle is made observable through an
event trace that records container/entry opens and closes exactly where
the Go code performs them.
-/

/-- A file entry of a ZIP archive (`zip.File`): its name and whether
`f.Open()` succeeds for it. -/
structure ZipFile where
  name : String
  openOk : Bool
  deriving DecidableEq, Repr

/-- The entry list of an opened archive (`zip.Reader.File`). -/
abbrev Archive := List ZipFile

/-- The error outcomes of `zipreader.go`, one constructor per `fmt.Errorf`
site plus container-open and entry-open failures of the collaborators. -/
inductive ZipError where
  /-- `openFromZIP`: "No such file in archive: %s". -/
  | noSuchFileInArchive (name : String) : ZipError
  /-- `loadSHPAndMaybeDBF`: "archive does not contain a .shp file". -/
  | archiveDoesNotContainSHP : ZipError
  /-- `loadSHPAndMaybeDBF`: "archive does contain multiple .shp files". -/
  | archiveContainsMultipleSHP : ZipError
  /-- `zip.OpenReader` / `ioutil.ReadAll` / `zip.NewReader` failed. -/
  | containerOpenFailed : ZipError
  /-- `f.Open()` failed on the named entry. -/
  | entryOpenFailed (name : String) : ZipError
  deriving DecidableEq, Repr

/-- Resource-lifecycle events, recorded where the Go code opens or closes
a container handle (`zip.ReadCloser`) or an entry stream. -/
inductive Event where
  | openContainer : Event
  | closeContainer : Event
  | openEntry (name : String) : Event
  | closeEntry (name : String) : Event
  deriving DecidableEq, Repr

/-- Go `strings.HasSuffix s suf`: `len(s) >= len(suf) && s[len(s)-len(suf):] == suf`. -/
def goHasSuffix (s suf : String) : Bool :=
  suf.data.isSuffixOf s.data

/-- Go `strings.TrimSuffix s suf`: `s[:len(s)-len(suf)]` when `suf` is a
suffix of `s`, otherwise `s` unchanged. -/
def goTrimSuffix (s suf : String) : String :=
  if goHasSuffix s suf then String.mk (s.data.take (s.data.length - suf.data.length)) else s

/-- The loop condition of Go `path.Ext`: keep scanning while the current
character is neither the extension dot nor a path separator. -/
def notDotOrSlash (c : Char) : Bool :=
  c != '.' && c != '/'

/-- The loop of Go `path.Ext`, run over the reversed character list
(`path.Ext` scans from the end): stop with `""` at a `/`, stop with the
accumulated tail at a `.`. -/
def extRev : List Char → List Char → String
  | [], _ => ""
  | c :: rest, acc =>
    if c = '/' then ""
    else if c = '.' then String.mk (c :: acc)
    else extRev rest (c :: acc)

/-- Go `path.Ext`: the suffix beginning at the final dot in the final
slash-separated element of the path; empty if there is no dot. -/
def pathExt (s : String) : String :=
  extRev s.data.reverse []

/-- `loadSHPAndMaybeDBF`'s companion name: `strings.TrimSuffix(name, ".shp") + ".dbf"`. -/
def dbfNameAuto (name : String) : String :=
  goTrimSuffix name ".shp" ++ ".dbf"

/-- `OpenShapeFromZip`'s companion name:
`strings.TrimSuffix(name, path.Ext(name)) + ".dbf"`. -/
def dbfNameFromExt (name : String) : String :=
  goTrimSuffix name (pathExt name) ++ ".dbf"

/-- Modelled from the spec: "strips the primary's extension (text after the
last path separator's final dot)".  Scanning the name from the end, if a dot
is found before any slash, everything from that dot onward is removed;
otherwise the name is kept whole. -/
def specStripExt (name : String) : String :=
  let r := name.data.reverse
  if (r.dropWhile notDotOrSlash).head? = some '.' then
    String.mk ((r.dropWhile notDotOrSlash).tail.reverse)
  else name

/-- Modelled from the spec: companion derivation — the primary's extension
replaced by the attribute-table extension ".dbf". -/
def specReplaceExtWithDbf (name : String) : String :=
  specStripExt name ++ ".dbf"

/-- `openFromZIP z name`: linear scan of the entry list for an exact name
match (`f.Name == name`), returning the found entry's opened stream
(identified here by the entry's name) or an error. -/
def openFromZIP (z : Archive) (name : String) : Except ZipError String :=
  match z.find? (fun f => f.name == name) with
  | some f =>
    if f.openOk then .ok f.name
    else .error (.entryOpenFailed f.name)
  | none => .error (.noSuchFileInArchive name)

/-- The handle events of one `openFromZIP` call: a successful `f.Open()`
opens one entry-stream handle, a failure opens nothing. -/
def openFromZIPEvents (z : Archive) (name : String) : List Event :=
  match openFromZIP z name with
  | .ok s => [Event.openEntry s]
  | .error _ => []

/-- `shapesInZip z`: the entries whose name ends with ".shp", in the
archive's native directory order. -/
def shapesInZip (z : Archive) : List ZipFile :=
  z.filter (fun f => goHasSuffix f.name ".shp")

/-- Modelled from the spec: the value built by `SequentialReaderFromExt`
(the Sequential Reader collaborator is outside this file's source); it
records the primary stream and the optional companion stream it was
constructed over (`Present`/`Absent` as `Option`). -/
structure seqReader where
  shp : String
  dbf : Option String
  deriving DecidableEq, Repr

/-- Modelled from the spec: constructor of the Sequential Reader from a
required primary stream and an optional companion stream. -/
def SequentialReaderFromExt (shp : String) (dbf : Option String) : seqReader :=
  { shp := shp, dbf := dbf }

/-- The `ZipReader` facade: the wrapped Sequential Reader state `sr`, the
archive entry index `z`, and whether the facade owns a container handle
(`file != nil`, set only by the by-path constructors). -/
structure ZipReader (σ : Type) where
  sr : σ
  z : Archive
  hasFile : Bool
  deriving DecidableEq, Repr

/-- `(zr *ZipReader) loadSHPAndMaybeDBF()`: auto-discovery of the single
".shp" entry, then opening of the pair; the companion's open error is
discarded (`dbf, _ := openFromZIP(...)`). -/
def loadSHPAndMaybeDBF (z : Archive) : Except ZipError seqReader :=
  match shapesInZip z with
  | [] => .error .archiveDoesNotContainSHP
  | [f] =>
    match openFromZIP z f.name with
    | .error e => .error e
    | .ok shp =>
      .ok (SequentialReaderFromExt shp (openFromZIP z (dbfNameAuto f.name)).toOption)
  | _ :: _ :: _ => .error .archiveContainsMultipleSHP

/-- The entry-stream handle events of one `loadSHPAndMaybeDBF` call. -/
def loadSHPAndMaybeDBFEvents (z : Archive) : List Event :=
  match shapesInZip z with
  | [] => []
  | [f] =>
    match openFromZIP z f.name with
    | .error _ => []
    | .ok _ => openFromZIPEvents z f.name ++ openFromZIPEvents z (dbfNameAuto f.name)
  | _ :: _ :: _ => []

/-- `OpenZip zipFilePath`: `zip.OpenReader` (modelled by the `Option`
argument), then `loadSHPAndMaybeDBF`; on success the facade owns the
container handle (`hasFile = true`); on any error `nil` and the error are
returned. -/
def OpenZip (arch : Option Archive) : Except ZipError (ZipReader seqReader) :=
  match arch with
  | none => .error .containerOpenFailed
  | some z =>
    match loadSHPAndMaybeDBF z with
    | .error e => .error e
    | .ok p => .ok { sr := p, z := z, hasFile := true }

/-- The handle events of one `OpenZip` call: a successful `zip.OpenReader`
opens the container handle; no path of the Go code closes it before
returning (on success its ownership passes to the facade). -/
def OpenZipEvents (arch : Option Archive) : List Event :=
  match arch with
  | none => []
  | some z => Event.openContainer :: loadSHPAndMaybeDBFEvents z

/-- `OpenZipReader zipFileStream`: the stream is read whole and indexed by
`zip.NewReader` (modelled by the `Option` argument; no OS container handle
exists, so `hasFile = false`), then `loadSHPAndMaybeDBF`. -/
def OpenZipReader (arch : Option Archive) : Except ZipError (ZipReader seqReader) :=
  match arch with
  | none => .error .containerOpenFailed
  | some z =>
    match loadSHPAndMaybeDBF z with
    | .error e => .error e
    | .ok p => .ok { sr := p, z := z, hasFile := false }

/-- `ShapesInZip zipFilePath`: open the archive, list the names of the
".shp" entries in directory order. -/
def ShapesInZip (arch : Option Archive) : Except ZipError (List String) :=
  match arch with
  | none => .error .containerOpenFailed
  | some z => .ok ((shapesInZip z).map (fun f => f.name))

/-- The handle events of one `ShapesInZip` call: the container handle is
opened; the Go function returns without ever closing it, and it opens no
entry stream. -/
def ShapesInZipEvents (arch : Option Archive) : List Event :=
  match arch with
  | none => []
  | some _ => [Event.openContainer]

/-- `OpenShapeFromZip zipFilePath name`: open the archive, open the named
entry exactly, derive and optionally open the ".dbf" companion (its error
is discarded), build the facade owning the container handle. -/
def OpenShapeFromZip (arch : Option Archive) (name : String) :
    Except ZipError (ZipReader seqReader) :=
  match arch with
  | none => .error .containerOpenFailed
  | some z =>
    match openFromZIP z name with
    | .error e => .error e
    | .ok shp =>
      .ok { sr := SequentialReaderFromExt shp (openFromZIP z (dbfNameFromExt name)).toOption,
            z := z, hasFile := true }

/-- The handle events of one `OpenShapeFromZip` call: the container handle
is opened and never closed before returning, plus the entry-stream opens. -/
def OpenShapeFromZipEvents (arch : Option Archive) (name : String) : List Event :=
  match arch with
  | none => []
  | some z =>
    Event.openContainer ::
      (match openFromZIP z name with
       | .error _ => []
       | .ok _ => openFromZIPEvents z name ++ openFromZIPEvents z (dbfNameFromExt name))

/-- Modelled from the spec: the Sequential Reader collaborator contract
(§4.3) as a dictionary of operations over an abstract internal state `σ`;
`Shp` and `Fld` are the abstract geometry and field-descriptor types.
`Next` and `Close` may mutate the state, the rest are read-only. -/
structure SequentialReader (σ Shp Fld : Type) where
  Next : σ → σ × Bool
  Shape : σ → Int × Shp
  Attribute : σ → Int → String
  Fields : σ → List Fld
  Err : σ → Option String
  Close : σ → σ × Option String

/-- `(zr *ZipReader) Next()`: `return zr.sr.Next()`. -/
def ZipReader.Next {σ Shp Fld : Type} (impl : SequentialReader σ Shp Fld)
    (zr : ZipReader σ) : ZipReader σ × Bool :=
  ({ zr with sr := (impl.Next zr.sr).1 }, (impl.Next zr.sr).2)

/-- `(zr *ZipReader) Shape()`: `return zr.sr.Shape()`. -/
def ZipReader.Shape {σ Shp Fld : Type} (impl : SequentialReader σ Shp Fld)
    (zr : ZipReader σ) : Int × Shp :=
  impl.Shape zr.sr

/-- `(zr *ZipReader) Attribute(n)`: `return zr.sr.Attribute(n)`. -/
def ZipReader.Attribute {σ Shp Fld : Type} (impl : SequentialReader σ Shp Fld)
    (zr : ZipReader σ) (n : Int) : String :=
  impl.Attribute zr.sr n

/-- `(zr *ZipReader) Fields()`: `return zr.sr.Fields()`. -/
def ZipReader.Fields {σ Shp Fld : Type} (impl : SequentialReader σ Shp Fld)
    (zr : ZipReader σ) : List Fld :=
  impl.Fields zr.sr

/-- `(zr *ZipReader) Err()`: `return zr.sr.Err()`. -/
def ZipReader.Err {σ Shp Fld : Type} (impl : SequentialReader σ Shp Fld)
    (zr : ZipReader σ) : Option String :=
  impl.Err zr.sr

/-- The error-string accumulation of `(zr *ZipReader) Close()`: start from
`s := ""`, append the Sequential Reader's close error message (plus ". "),
then — only when the facade owns a container handle — the container's
close error message (plus ". "). -/
def closeErrString (srErr : Option String) (hasFile : Bool) (fileErr : Option String) : String :=
  let s := ""
  let s := match srErr with
    | some e => s ++ e ++ ". "
    | none => s
  if hasFile then
    match fileErr with
    | some e => s ++ e ++ ". "
    | none => s
  else s

/-- `(zr *ZipReader) Close()`: close the Sequential Reader, then (when the
facade owns a container handle, whose close outcome is the parameter
`fileCloseErr`) the container handle; error messages are accumulated by
`closeErrString`, and a non-empty accumulated string becomes the single
returned error. -/
def ZipReader.Close {σ Shp Fld : Type} (impl : SequentialReader σ Shp Fld)
    (zr : ZipReader σ) (fileCloseErr : Option String) : ZipReader σ × Option String :=
  ({ zr with sr := (impl.Close zr.sr).1 },
   if closeErrString (impl.Close zr.sr).2 zr.hasFile fileCloseErr ≠ "" then
     some (closeErrString (impl.Close zr.sr).2 zr.hasFile fileCloseErr)
   else none)

lemma notDotOrSlash_eq_true {c : Char} (h1 : c ≠ '.') (h2 : c ≠ '/') :
    notDotOrSlash c = true := by
  simp [notDotOrSlash, bne_iff_ne, h1, h2]

lemma append_period_ne_empty (b : String) : b ++ ". " ≠ "" := by
  intro h
  have h3 := congrArg List.length (congrArg String.data h)
  rw [String.data_append] at h3
  simp [List.length_append, show (". " : String).data = ['.', ' '] from rfl] at h3

lemma extRev_of_head_dot : ∀ (l acc : List Char),
    (l.dropWhile notDotOrSlash).head? = some '.' →
    extRev l acc = String.mk ('.' :: ((l.takeWhile notDotOrSlash).reverse ++ acc)) := by
  intro l
  induction l with
  | nil => intro acc h; simp [List.dropWhile_nil] at h
  | cons c rest ih =>
    intro acc h
    by_cases hs : c = '/'
    · subst hs
      rw [List.dropWhile_cons, show notDotOrSlash '/' = false from by decide] at h
      simp at h
    · by_cases hd : c = '.'
      · subst hd
        rw [List.takeWhile_cons, show notDotOrSlash '.' = false from by decide]
        simp [extRev]
      · have hp := notDotOrSlash_eq_true hd hs
        rw [List.dropWhile_cons, hp] at h
        rw [List.takeWhile_cons, hp]
        simp only [extRev, if_neg hs, if_neg hd]
        rw [ih (c :: acc) (by simpa using h)]
        simp [List.reverse_cons, List.append_assoc]

lemma extRev_of_head_ne_dot : ∀ (l acc : List Char),
    (l.dropWhile notDotOrSlash).head? ≠ some '.' →
    extRev l acc = "" := by
  intro l
  induction l with
  | nil => intro acc _; rfl
  | cons c rest ih =>
    intro acc h
    by_cases hs : c = '/'
    · subst hs; simp [extRev]
    · by_cases hd : c = '.'
      · subst hd
        rw [List.dropWhile_cons, show notDotOrSlash '.' = false from by decide] at h
        simp at h
      · have hp := notDotOrSlash_eq_true hd hs
        rw [List.dropWhile_cons, hp] at h
        simp only [extRev, if_neg hs, if_neg hd]
        exact ih (c :: acc) (by simpa using h)

lemma goTrimSuffix_of_append (s pre suf : String) (h : s.data = pre.data ++ suf.data) :
    goTrimSuffix s suf = pre := by
  have hsuf : goHasSuffix s suf = true := by
    rw [goHasSuffix, List.isSuffixOf_iff_suffix]
    exact ⟨pre.data, h.symm⟩
  rw [goTrimSuffix, if_pos hsuf]
  apply String.ext
  show s.data.take (s.data.length - suf.data.length) = pre.data
  rw [h, List.length_append, Nat.add_sub_cancel, List.take_left]

lemma goTrimSuffix_pathExt (s : String) : goTrimSuffix s (pathExt s) = specStripExt s := by
  by_cases h : ((s.data.reverse).dropWhile notDotOrSlash).head? = some '.'
  · obtain ⟨t, hd⟩ : ∃ t, (s.data.reverse).dropWhile notDotOrSlash = '.' :: t := by
      cases hdw : (s.data.reverse).dropWhile notDotOrSlash with
      | nil => rw [hdw] at h; simp at h
      | cons a t =>
        rw [hdw] at h
        simp at h
        exact ⟨t, by rw [h]⟩
    have hext : pathExt s =
        String.mk ('.' :: ((s.data.reverse).takeWhile notDotOrSlash).reverse) := by
      rw [pathExt, extRev_of_head_dot _ _ h, List.append_nil]
    have hdecomp : s.data =
        t.reverse ++ ('.' :: ((s.data.reverse).takeWhile notDotOrSlash).reverse) := by
      have hr : (s.data.reverse).takeWhile notDotOrSlash ++ ('.' :: t) = s.data.reverse := by
        conv_rhs => rw [← List.takeWhile_append_dropWhile notDotOrSlash s.data.reverse]
        rw [hd]
      have h2 := congrArg List.reverse hr
      rw [List.reverse_reverse] at h2
      have h3 : (((s.data.reverse).takeWhile notDotOrSlash) ++ ('.' :: t)).reverse =
          t.reverse ++ ('.' :: ((s.data.reverse).takeWhile notDotOrSlash).reverse) := by
        rw [List.reverse_append, List.reverse_cons, List.append_assoc]
        simp
      exact h2.symm.trans h3
    have hspec : specStripExt s = String.mk t.reverse := by
      simp [specStripExt, hd]
    rw [hext, hspec]
    exact goTrimSuffix_of_append s (String.mk t.reverse) _ hdecomp
  · have hext : pathExt s = "" := extRev_of_head_ne_dot _ _ h
    rw [hext, specStripExt, goTrimSuffix]
    have hsuf : goHasSuffix s "" = true := by
      rw [goHasSuffix, List.isSuffixOf_iff_suffix]
      exact List.nil_suffix
    rw [if_pos hsuf, if_neg h]
    apply String.ext
    show s.data.take _ = s.data
    simp [List.take_length]

lemma pathExt_of_shp {nm : String} (h : goHasSuffix nm ".shp" = true) :
    pathExt nm = ".shp" := by
  rw [goHasSuffix, List.isSuffixOf_iff_suffix] at h
  obtain ⟨pre, hpre⟩ := h
  have hdata : nm.data = pre ++ ['.', 's', 'h', 'p'] := hpre.symm
  have hrev : nm.data.reverse = 'p' :: 'h' :: 's' :: '.' :: pre.reverse := by
    rw [hdata, List.reverse_append]
    rfl
  rw [pathExt, hrev]
  rw [extRev_of_head_dot]
  · rw [List.takeWhile_cons, show notDotOrSlash 'p' = true from by decide]
    rw [List.takeWhile_cons, show notDotOrSlash 'h' = true from by decide]
    rw [List.takeWhile_cons, show notDotOrSlash 's' = true from by decide]
    rw [List.takeWhile_cons, show notDotOrSlash '.' = false from by decide]
    simp
  · rw [List.dropWhile_cons, show notDotOrSlash 'p' = true from by decide]
    rw [List.dropWhile_cons, show notDotOrSlash 'h' = true from by decide]
    rw [List.dropWhile_cons, show notDotOrSlash 's' = true from by decide]
    rw [List.dropWhile_cons, show notDotOrSlash '.' = false from by decide]
    simp

lemma shapesInZip_map_name : ∀ z : Archive,
    (shapesInZip z).map (fun f => f.name) =
      (z.map (fun f => f.name)).filter (fun n => goHasSuffix n ".shp") := by
  intro z
  induction z with
  | nil => rfl
  | cons f rest ih =>
    simp only [shapesInZip, List.filter_cons, List.map_cons] at ih ⊢
    by_cases h : goHasSuffix f.name ".shp"
    · simp [h, ih]
    · simp [h, ih]

/-- Claim C7: the derived companion entry name equals the primary name with
its extension — the text after the final dot of the last path element —
replaced by ".dbf"; auto-discovery strips the trailing ".shp" and appends
".dbf" (`dbfNameAuto`), open-by-name strips `path.Ext` of the name (nothing
when the last element has no dot) and appends ".dbf" (`dbfNameFromExt`),
and both coincide with the spec's extension-replacement derivation. -/
theorem C7_companion_name_is_extension_replaced :
    (∀ name : String, goHasSuffix name ".shp" = true →
      dbfNameAuto name = specReplaceExtWithDbf name) ∧
    (∀ name : String, dbfNameFromExt name = specReplaceExtWithDbf name) := by
  constructor
  · intro name h
    rw [dbfNameAuto, specReplaceExtWithDbf, ← goTrimSuffix_pathExt, pathExt_of_shp h]
  · intro name
    rw [dbfNameFromExt, specReplaceExtWithDbf, goTrimSuffix_pathExt]

/-- Witness for C7 at concrete names, including a slash-and-dot directory
component and an extension other than ".shp". -/
theorem C7_companion_name_is_extension_replaced_witness :
    goHasSuffix "dir.v2/data.shp" ".shp" = true ∧
    dbfNameAuto "dir.v2/data.shp" = specReplaceExtWithDbf "dir.v2/data.shp" ∧
    dbfNameFromExt "dir.v2/parcels.txt" = specReplaceExtWithDbf "dir.v2/parcels.txt" :=
  ⟨by decide,
   C7_companion_name_is_extension_replaced.1 "dir.v2/data.shp" (by decide),
   C7_companion_name_is_extension_replaced.2 "dir.v2/parcels.txt"⟩

/-- Claim C6: for every archive that opens, `ShapesInZip` returns exactly
the names of the entries whose name ends with ".shp", in the archive's
native directory order; its event trace is the container open alone (no
entry stream is opened), and it fails only when the archive cannot be
opened. -/
theorem C6_ShapesInZip_lists_shp_names_in_order :
    (∀ z : Archive,
      ShapesInZip (some z) =
        .ok ((z.map (fun f => f.name)).filter (fun n => goHasSuffix n ".shp")) ∧
      ShapesInZipEvents (some z) = [Event.openContainer]) ∧
    ShapesInZip none = .error .containerOpenFailed := by
  refine ⟨fun z => ⟨?_, rfl⟩, rfl⟩
  show Except.ok ((shapesInZip z).map (fun f => f.name)) = _
  rw [shapesInZip_map_name]

/-- Claim C9: each facade method returns exactly the result of the
identical call on the wrapped Sequential Reader; `Next` changes only the
wrapped reader state, and the facade keeps no cursor state of its own
(its only fields are the wrapped reader, the entry index and the
container-ownership flag, none of which the accessors mutate). -/
theorem C9_facade_methods_forward_to_sequential_reader :
    ∀ {σ Shp Fld : Type} (impl : SequentialReader σ Shp Fld) (zr : ZipReader σ),
      ZipReader.Next impl zr =
        ({ sr := (impl.Next zr.sr).1, z := zr.z, hasFile := zr.hasFile },
          (impl.Next zr.sr).2) ∧
      ZipReader.Shape impl zr = impl.Shape zr.sr ∧
      (∀ n : Int, ZipReader.Attribute impl zr n = impl.Attribute zr.sr n) ∧
      ZipReader.Fields impl zr = impl.Fields zr.sr ∧
      ZipReader.Err impl zr = impl.Err zr.sr :=
  fun _ _ => ⟨rfl, rfl, fun _ => rfl, rfl, rfl⟩

/-- Claim C1: auto-discovering open (`OpenZip` / `OpenZipReader`) succeeds
only when exactly one entry name ends with ".shp"; with no such entry it
fails with the EntryNotFound-kind error `archiveDoesNotContainSHP`, with
more than one it fails with the AmbiguousEntry-kind error
`archiveContainsMultipleSHP`, and in both failure cases only the error is
returned (no facade). -/
theorem C1_auto_open_requires_unique_shp :
    ∀ z : Archive,
      (z.countP (fun f => goHasSuffix f.name ".shp") = 0 →
        OpenZip (some z) = .error .archiveDoesNotContainSHP ∧
        OpenZipReader (some z) = .error .archiveDoesNotContainSHP) ∧
      (1 < z.countP (fun f => goHasSuffix f.name ".shp") →
        OpenZip (some z) = .error .archiveContainsMultipleSHP ∧
        OpenZipReader (some z) = .error .archiveContainsMultipleSHP) ∧
      (∀ zr, OpenZip (some z) = .ok zr →
        z.countP (fun f => goHasSuffix f.name ".shp") = 1) ∧
      (∀ zr, OpenZipReader (some z) = .ok zr →
        z.countP (fun f => goHasSuffix f.name ".shp") = 1) := by
  intro z
  have hc : z.countP (fun f => goHasSuffix f.name ".shp") = (shapesInZip z).length := by
    rw [shapesInZip, List.countP_eq_length_filter]
  refine ⟨?_, ?_, ?_, ?_⟩
  · intro h
    rw [hc] at h
    have hnil : shapesInZip z = [] := List.length_eq_zero.mp h
    constructor <;> simp [OpenZip, OpenZipReader, loadSHPAndMaybeDBF, hnil]
  · intro h
    rw [hc] at h
    match hs : shapesInZip z with
    | [] => rw [hs] at h; simp at h
    | [f] => rw [hs] at h; simp at h
    | a :: b :: t => constructor <;> simp [OpenZip, OpenZipReader, loadSHPAndMaybeDBF, hs]
  · intro zr h
    match hs : shapesInZip z with
    | [] => simp [OpenZip, loadSHPAndMaybeDBF, hs] at h
    | [f] => rw [hc, hs]; rfl
    | a :: b :: t => simp [OpenZip, loadSHPAndMaybeDBF, hs] at h
  · intro zr h
    match hs : shapesInZip z with
    | [] => simp [OpenZipReader, loadSHPAndMaybeDBF, hs] at h
    | [f] => rw [hc, hs]; rfl
    | a :: b :: t => simp [OpenZipReader, loadSHPAndMaybeDBF, hs] at h

/-- An archive with no ".shp" entry. -/
def zNoShp : Archive := [{ name := "readme.txt", openOk := true }]

/-- An archive with two ".shp" entries. -/
def zTwoShp : Archive := [{ name := "a.shp", openOk := true }, { name := "b.shp", openOk := true }]

/-- Witness for C1 on concrete archives with zero and with two geometry
entries. -/
theorem C1_auto_open_requires_unique_shp_witness :
    OpenZip (some zNoShp) = .error .archiveDoesNotContainSHP ∧
    OpenZipReader (some zTwoShp) = .error .archiveContainsMultipleSHP :=
  ⟨((C1_auto_open_requires_unique_shp zNoShp).1 (by decide)).1,
   (((C1_auto_open_requires_unique_shp zTwoShp).2.1) (by decide)).2⟩

/-- Claim C8: `OpenShapeFromZip` fails with the EntryNotFound-kind error
`noSuchFileInArchive` exactly when no entry of the (opened) archive has
the requested name; when an entry with exactly that name exists and its
stream opens, construction succeeds regardless of the name's extension. -/
theorem C8_open_by_name_entry_not_found_iff :
    ∀ (z : Archive) (name : String),
      (OpenShapeFromZip (some z) name = .error (.noSuchFileInArchive name) ↔
        z.find? (fun f => f.name == name) = none) ∧
      (∀ f, z.find? (fun f => f.name == name) = some f → f.openOk = true →
        ∃ zr, OpenShapeFromZip (some z) name = .ok zr) := by
  intro z name
  constructor
  · cases hf : z.find? (fun f => f.name == name) with
    | none =>
      constructor
      · intro _; rfl
      · intro _; simp [OpenShapeFromZip, openFromZIP, hf]
    | some f =>
      constructor
      · intro h
        exfalso
        cases ho : f.openOk with
        | true => simp [OpenShapeFromZip, openFromZIP, hf, ho] at h
        | false => simp [OpenShapeFromZip, openFromZIP, hf, ho] at h
      · intro h
        exact Option.noConfusion h
  · intro f hf ho
    exact ⟨{ sr := SequentialReaderFromExt f.name
               (openFromZIP z (dbfNameFromExt name)).toOption, z := z, hasFile := true },
           by simp [OpenShapeFromZip, openFromZIP, hf, ho]⟩

/-- An archive whose only entry is not a ".shp" file. -/
def zTxtOnly : Archive := [{ name := "parcels.txt", openOk := true }]

/-- Witness for C8: the missing name fails with `noSuchFileInArchive`; the
present name succeeds although its extension is ".txt". -/
theorem C8_open_by_name_entry_not_found_iff_witness :
    OpenShapeFromZip (some zTxtOnly) "nope.shp" = .error (.noSuchFileInArchive "nope.shp") ∧
    ∃ zr, OpenShapeFromZip (some zTxtOnly) "parcels.txt" = .ok zr :=
  ⟨((C8_open_by_name_entry_not_found_iff zTxtOnly "nope.shp").1).mpr (by decide),
   (C8_open_by_name_entry_not_found_iff zTxtOnly "parcels.txt").2
     { name := "parcels.txt", openOk := true } (by decide) rfl⟩

/-- Claim C3: pair opening fails only if the primary entry cannot be
opened; any error opening the derived ".dbf" companion — absent or
unreadable — is swallowed, the companion is recorded as absent, and
construction still succeeds.  Stated for `OpenShapeFromZip` and for the
auto-discovery path `loadSHPAndMaybeDBF`. -/
theorem C3_companion_open_error_swallowed :
    ∀ (z : Archive) (name : String),
      (∀ s, openFromZIP z name = .ok s →
        OpenShapeFromZip (some z) name =
          .ok { sr := SequentialReaderFromExt s (openFromZIP z (dbfNameFromExt name)).toOption,
                z := z, hasFile := true } ∧
        (∀ e, openFromZIP z (dbfNameFromExt name) = .error e →
          ∃ zr, OpenShapeFromZip (some z) name = .ok zr ∧ zr.sr.dbf = none)) ∧
      (∀ e, openFromZIP z name = .error e → OpenShapeFromZip (some z) name = .error e) ∧
      (∀ f, shapesInZip z = [f] → ∀ s, openFromZIP z f.name = .ok s →
        loadSHPAndMaybeDBF z =
          .ok (SequentialReaderFromExt s (openFromZIP z (dbfNameAuto f.name)).toOption) ∧
        (∀ e, openFromZIP z (dbfNameAuto f.name) = .error e →
          ∃ p, loadSHPAndMaybeDBF z = .ok p ∧ p.dbf = none)) := by
  intro z name
  refine ⟨?_, ?_, ?_⟩
  · intro s hs
    have hmain : OpenShapeFromZip (some z) name =
        .ok { sr := SequentialReaderFromExt s (openFromZIP z (dbfNameFromExt name)).toOption,
              z := z, hasFile := true } := by
      simp [OpenShapeFromZip, hs]
    refine ⟨hmain, fun e he => ⟨_, hmain, ?_⟩⟩
    show (SequentialReaderFromExt s (openFromZIP z (dbfNameFromExt name)).toOption).dbf = none
    rw [he]
    rfl
  · intro e he
    simp [OpenShapeFromZip, he]
  · intro f hf s hs
    have hmain : loadSHPAndMaybeDBF z =
        .ok (SequentialReaderFromExt s (openFromZIP z (dbfNameAuto f.name)).toOption) := by
      simp [loadSHPAndMaybeDBF, hf, hs]
    refine ⟨hmain, fun e he => ⟨_, hmain, ?_⟩⟩
    show (SequentialReaderFromExt s (openFromZIP z (dbfNameAuto f.name)).toOption).dbf = none
    rw [he]
    rfl

/-- An archive whose ".dbf" companion is present but unreadable. -/
def zBadDbf : Archive := [{ name := "data.shp", openOk := true }, { name := "data.dbf", openOk := false }]

/-- Witness for C3: with an unreadable "data.dbf", opening "data.shp"
still succeeds and the companion is absent. -/
theorem C3_companion_open_error_swallowed_witness :
    ∃ zr, OpenShapeFromZip (some zBadDbf) "data.shp" = .ok zr ∧ zr.sr.dbf = none :=
  ((C3_companion_open_error_swallowed zBadDbf "data.shp").1 "data.shp" rfl).2
    (.entryOpenFailed "data.dbf") rfl

lemma data_of_close_append (e1 e2 : String) :
    ("" ++ e1 ++ ". " ++ e2 ++ ". ").data
      = e1.data ++ ('.' :: ' ' :: (e2.data ++ ['.', ' '])) := by
  simp [String.data_append, show (". " : String).data = ['.', ' '] from rfl,
        show ("" : String).data = ([] : List Char) from rfl]

lemma closeErrString_eq_empty_iff :
    ∀ (srErr : Option String) (hasFile : Bool) (fErr : Option String),
      closeErrString srErr hasFile fErr = "" ↔
        (srErr = none ∧ (hasFile = true → fErr = none))
  | none, false, none => by simp [closeErrString]
  | none, false, some _ => by simp [closeErrString]
  | none, true, none => by simp [closeErrString]
  | none, true, some e =>
      iff_of_false (append_period_ne_empty ("" ++ e)) (by simp)
  | some e, false, none =>
      iff_of_false (append_period_ne_empty ("" ++ e)) (by simp)
  | some e, false, some _ =>
      iff_of_false (append_period_ne_empty ("" ++ e)) (by simp)
  | some e, true, none =>
      iff_of_false (append_period_ne_empty ("" ++ e)) (by simp)
  | some e, true, some e2 =>
      iff_of_false (append_period_ne_empty ("" ++ e ++ ". " ++ e2)) (by simp)

/-- Claim C2: `Close` closes the Sequential Reader and then, when the
facade owns a container handle, also that handle even if the first close
failed; when both fail the single returned error contains both underlying
messages, and when nothing fails it returns no error. -/
theorem C2_close_aggregates_both_errors :
    ∀ {σ Shp Fld : Type} (impl : SequentialReader σ Shp Fld) (zr : ZipReader σ)
      (fileCloseErr : Option String),
      (ZipReader.Close impl zr fileCloseErr).1.sr = (impl.Close zr.sr).1 ∧
      (∀ e1 e2, (impl.Close zr.sr).2 = some e1 → zr.hasFile = true →
        fileCloseErr = some e2 →
        ∃ s, (ZipReader.Close impl zr fileCloseErr).2 = some s ∧
          e1.data <:+: s.data ∧ e2.data <:+: s.data) ∧
      ((impl.Close zr.sr).2 = none → (zr.hasFile = true → fileCloseErr = none) →
        (ZipReader.Close impl zr fileCloseErr).2 = none) := by
  intro σ Shp Fld impl zr fErr
  refine ⟨rfl, ?_, ?_⟩
  · intro e1 e2 h1 hh h2
    refine ⟨"" ++ e1 ++ ". " ++ e2 ++ ". ", ?_, ?_, ?_⟩
    · show (if closeErrString (impl.Close zr.sr).2 zr.hasFile fErr ≠ "" then
          some (closeErrString (impl.Close zr.sr).2 zr.hasFile fErr) else none) = _
      rw [h1, hh, h2]
      rw [show closeErrString (some e1) true (some e2) =
          "" ++ e1 ++ ". " ++ e2 ++ ". " from rfl]
      rw [if_pos (append_period_ne_empty _)]
    · rw [data_of_close_append]
      exact ⟨[], '.' :: ' ' :: (e2.data ++ ['.', ' ']), by simp⟩
    · rw [data_of_close_append]
      exact ⟨e1.data ++ ['.', ' '], ['.', ' '], by simp⟩
  · intro h1 h2
    show (if closeErrString (impl.Close zr.sr).2 zr.hasFile fErr ≠ "" then
        some (closeErrString (impl.Close zr.sr).2 zr.hasFile fErr) else none) = none
    have hempty : closeErrString (impl.Close zr.sr).2 zr.hasFile fErr = "" :=
      (closeErrString_eq_empty_iff _ _ _).mpr ⟨h1, h2⟩
    rw [hempty]
    simp

/-- A Sequential Reader whose close always fails. -/
def implBothFail : SequentialReader Unit Unit Unit :=
  { Next := fun s => (s, false), Shape := fun _ => (0, ()), Attribute := fun _ _ => "",
    Fields := fun _ => [], Err := fun _ => none,
    Close := fun s => (s, some "shp close failed") }

/-- A facade owning a container handle. -/
def zrOwned : ZipReader Unit := { sr := (), z := [], hasFile := true }

/-- Witness for C2: both closes fail and both messages appear in the one
aggregate error. -/
theorem C2_close_aggregates_both_errors_witness :
    ∃ s, (ZipReader.Close implBothFail zrOwned (some "zip close failed")).2 = some s ∧
      ("shp close failed" : String).data <:+: s.data ∧
      ("zip close failed" : String).data <:+: s.data :=
  (C2_close_aggregates_both_errors implBothFail zrOwned (some "zip close failed")).2.1
    "shp close failed" "zip close failed" rfl rfl rfl

lemma close_result_eq_none_iff {σ Shp Fld : Type} (impl : SequentialReader σ Shp Fld)
    (zr : ZipReader σ) (fErr : Option String) :
    (ZipReader.Close impl zr fErr).2 = none ↔
      (impl.Close zr.sr).2 = none ∧ (zr.hasFile = true → fErr = none) := by
  rw [show (ZipReader.Close impl zr fErr).2 =
      (if closeErrString (impl.Close zr.sr).2 zr.hasFile fErr ≠ "" then
        some (closeErrString (impl.Close zr.sr).2 zr.hasFile fErr) else none) from rfl]
  by_cases hc : closeErrString (impl.Close zr.sr).2 zr.hasFile fErr = ""
  · rw [if_neg (fun hn => hn hc)]
    exact iff_of_true rfl ((closeErrString_eq_empty_iff _ _ _).mp hc)
  · rw [if_pos hc]
    exact iff_of_false (by simp) (fun hr => hc ((closeErrString_eq_empty_iff _ _ _).mpr hr))

/-- A Sequential Reader whose close succeeds once and then fails, as a
stream-backed reader does when its file is already closed. -/
def implSecondCloseFails : SequentialReader Bool Unit Unit :=
  { Next := fun s => (s, false), Shape := fun _ => (0, ()), Attribute := fun _ _ => "",
    Fields := fun _ => [], Err := fun _ => none,
    Close := fun s => (true, if s then some "shp: file already closed" else none) }

/-- A facade over that reader with no container handle (constructed from a
caller-supplied stream). -/
def zrStream : ZipReader Bool := { sr := false, z := [], hasFile := false }

/-- Counterexample to claim C4: `Close` keeps no closed flag, so a second
`Close` re-invokes the Sequential Reader's close; for this facade the
first `Close` returns no error, while the second returns an error instead
of being a no-op returning no error. -/
theorem C4_counterexample_second_close_errors :
    (ZipReader.Close implSecondCloseFails zrStream none).2 = none ∧
    (ZipReader.Close implSecondCloseFails
        (ZipReader.Close implSecondCloseFails zrStream none).1 none).2 =
      some "shp: file already closed. " := by
  constructor <;> rfl

/-- Claim C4 as amended: a second `Close` is not guarded; it re-invokes
the underlying closes and returns no error exactly when the Sequential
Reader's second close reports no error and, when the facade owns the
container handle, the container's second close reports no error. -/
theorem C4_amended_second_close_reinvokes :
    ∀ {σ Shp Fld : Type} (impl : SequentialReader σ Shp Fld) (zr : ZipReader σ)
      (f1 f2 : Option String),
      ((ZipReader.Close impl (ZipReader.Close impl zr f1).1 f2).2 = none ↔
        (impl.Close (impl.Close zr.sr).1).2 = none ∧ (zr.hasFile = true → f2 = none)) := by
  intro σ Shp Fld impl zr f1 f2
  exact close_result_eq_none_iff impl (ZipReader.Close impl zr f1).1 f2

/-- A Sequential Reader whose close always succeeds. -/
def implCleanClose : SequentialReader Unit Unit Unit :=
  { Next := fun s => (s, false), Shape := fun _ => (0, ()), Attribute := fun _ _ => "",
    Fields := fun _ => [], Err := fun _ => none, Close := fun s => (s, none) }

/-- Witness for the amended C4: with an idempotently succeeding reader
close and no container handle, the second `Close` returns no error. -/
theorem C4_amended_second_close_reinvokes_witness :
    (ZipReader.Close implCleanClose
      (ZipReader.Close implCleanClose { sr := (), z := [], hasFile := false } none).1 none).2
      = none :=
  (C4_amended_second_close_reinvokes implCleanClose
      { sr := (), z := [], hasFile := false } none none).mpr ⟨rfl, fun _ => rfl⟩

/-- Claim C5 (the code violates it): `ShapesInZip` opens the container
handle and returns without any `closeContainer` event, and the failure
paths of `OpenZip` / `OpenShapeFromZip` after a successful archive open
likewise end with the handle still open — the handle is not released
exactly once. -/
theorem C5_container_handle_never_released :
    ShapesInZip (some [{ name := "a.shp", openOk := true }]) = .ok ["a.shp"] ∧
    ShapesInZipEvents (some [{ name := "a.shp", openOk := true }]) = [Event.openContainer] ∧
    (ShapesInZipEvents (some [{ name := "a.shp", openOk := true }])).count
      Event.closeContainer = 0 ∧
    OpenZip (some zNoShp) = .error .archiveDoesNotContainSHP ∧
    OpenZipEvents (some zNoShp) = [Event.openContainer] ∧
    (OpenZipEvents (some zNoShp)).count Event.closeContainer = 0 ∧
    OpenShapeFromZip (some zTxtOnly) "nope.shp" = .error (.noSuchFileInArchive "nope.shp") ∧
    OpenShapeFromZipEvents (some zTxtOnly) "nope.shp" = [Event.openContainer] ∧
    (OpenShapeFromZipEvents (some zTxtOnly) "nope.shp").count Event.closeContainer = 0 := by
  refine ⟨rfl, rfl, rfl, rfl, rfl, rfl, rfl, rfl, rfl⟩

/-- Claim C10: entry-name matching is byte-exact and case-sensitive
everywhere: suffix discovery keeps exactly the entries whose name ends in
lowercase ".shp" (so "DATA.SHP" is not a geometry entry and such an
archive fails auto-discovery as if empty of geometry), and by-name lookup
succeeds only on an entry with exactly the requested name (so a companion
named "DATA.DBF" is not found for "data.dbf" and the pair is absent). -/
theorem C10_matching_is_case_sensitive :
    (∀ (z : Archive) (f : ZipFile), f ∈ shapesInZip z ↔
      f ∈ z ∧ goHasSuffix f.name ".shp" = true) ∧
    (∀ (z : Archive) (name s : String), openFromZIP z name = .ok s →
      ∃ f, f ∈ z ∧ f.name = name) ∧
    shapesInZip [{ name := "DATA.SHP", openOk := true }] = [] ∧
    OpenZipReader (some [{ name := "DATA.SHP", openOk := true }]) =
      .error .archiveDoesNotContainSHP ∧
    loadSHPAndMaybeDBF
        [{ name := "data.shp", openOk := true }, { name := "DATA.DBF", openOk := true }] =
      .ok { shp := "data.shp", dbf := none } := by
  refine ⟨?_, ?_, rfl, rfl, rfl⟩
  · intro z f
    simp [shapesInZip, List.mem_filter]
  · intro z name s h
    cases hf : z.find? (fun f => f.name == name) with
    | none => simp [openFromZIP, hf] at h
    | some f =>
      refine ⟨f, List.mem_of_find?_eq_some hf, ?_⟩
      have hp := List.find?_some hf
      simpa using hp

/-- Witness for C10: the exact-name lookup hypothesis discharged on a
concrete archive, and a lowercase ".shp" entry kept by discovery. -/
theorem C10_matching_is_case_sensitive_witness :
    (∃ f, f ∈ zTxtOnly ∧ f.name = "parcels.txt") ∧
    ({ name := "a.shp", openOk := true } : ZipFile) ∈
      shapesInZip [{ name := "a.shp", openOk := true }] :=
  ⟨C10_matching_is_case_sensitive.2.1 zTxtOnly "parcels.txt" "parcels.txt" rfl,
   (C10_matching_is_case_sensitive.1 [{ name := "a.shp", openOk := true }]
     { name := "a.shp", openOk := true }).mpr (by decide)⟩
